import Mathlib

/-!
Shallow embedding of `src/telegram_bot.py` (a Telegram ledger bot).

Modelling conventions:
* Python floats are modelled as rationals (`ℚ`); the literal `0.00001`
  threshold is modelled as `1/100000` and `DEFAULT_RATE = 93.5` as `187/2`.
* The SQLite `entries` table is a list of `Entry` in insertion order together
  with the autoincrement counter `nextId` (SQLite `AUTOINCREMENT` never reuses
  ids).  The `meta` table's single `rate` row is an `Option MetaVal`: a stored
  string either parses as a float (`MetaVal.num q`) or does not
  (`MetaVal.text s`), which is the only distinction `get_rate` observes.
* Telegram transport, admin checks and message formatting are outside the
  store; handlers are modelled from the point where they mutate or read the
  store, with the data they read from the update object passed as arguments.
-/

namespace LedgerBot

/-- One row of the `entries` table (telegram_bot.py, `init_db`). -/
structure Entry where
  id : Nat
  user_id : Int
  username : String
  amount_inr : ℚ
  amount_usdt : ℚ
  ts : String
deriving Repr, DecidableEq

/-- A value stored in the `meta` table: either a string that Python
`float()` parses (carrying the parsed value) or a non-numeric string. -/
inductive MetaVal where
  | num (q : ℚ)
  | text (s : String)
deriving Repr, DecidableEq

/-- The persistent state: `entries` table (in id order of insertion),
the autoincrement counter, and the `meta` table's `rate` row. -/
structure Store where
  entries : List Entry
  nextId : Nat
  rateVal : Option MetaVal
deriving Repr, DecidableEq

/-- `DEFAULT_RATE = 93.5` (line 32). -/
def DEFAULT_RATE : ℚ := 187 / 2

/-- `init_db` (lines 42-63): empty entries table, autoincrement starts at 1,
and `INSERT OR IGNORE` puts the default rate in the fresh `meta` table. -/
def init_db : Store :=
  { entries := [], nextId := 1, rateVal := some (MetaVal.num DEFAULT_RATE) }

/-- `set_rate` (lines 79-82): `REPLACE INTO meta` with `str(rate)`; a float's
`str` always parses back to the same float, hence `MetaVal.num`. -/
def set_rate (s : Store) (rate : ℚ) : Store :=
  { s with rateVal := some (MetaVal.num rate) }

/-- `get_rate` (lines 67-77): if a `rate` row exists, `float(value)` on it,
falling back to `DEFAULT_RATE` when parsing raises; only when the row is
absent is the default written back via `set_rate`.  Returns the rate together
with the possibly-updated store. -/
def get_rate (s : Store) : ℚ × Store :=
  match s.rateVal with
  | some (MetaVal.num q) => (q, s)
  | some (MetaVal.text _) => (DEFAULT_RATE, s)
  | none => (DEFAULT_RATE, set_rate s DEFAULT_RATE)

/-- The rate value `get_rate` reports for a store. -/
def rateValue (s : Store) : ℚ := (get_rate s).1

/-- Python truthiness `a and b` on floats. -/
def pyAnd (a b : ℚ) : ℚ := if a = 0 then a else b

/-- Python truthiness `a or b` on floats. -/
def pyOr (a b : ℚ) : ℚ := if a = 0 then b else a

/-- `SELECT MAX(id) FROM entries` (with 0 for an empty table). -/
def maxId (l : List Entry) : Nat := l.foldl (fun acc e => max acc e.id) 0

/-- `add_entry` (lines 84-93): INSERT a row whose `amount_usdt` column gets
the Python expression `amount_inr and amount_usdt or 0.0`, then UPDATE the
row with the maximal id to the provided `amount_usdt`.  The timestamp string
produced by `datetime.now` is passed in as `ts`. -/
def add_entry (s : Store) (user_id : Int) (username : String)
    (amount_inr amount_usdt : ℚ) (ts : String) : Nat × Store :=
  let inserted : Entry :=
    { id := s.nextId, user_id := user_id, username := username,
      amount_inr := amount_inr,
      amount_usdt := pyOr (pyAnd amount_inr amount_usdt) 0,
      ts := ts }
  let entries1 := s.entries ++ [inserted]
  let m := maxId entries1
  let entries2 := entries1.map
    (fun e => if e.id = m then { e with amount_usdt := amount_usdt } else e)
  (s.nextId, { s with entries := entries2, nextId := s.nextId + 1 })

/-- `delete_last_entry` (lines 95-104): select the row with the largest id
(`ORDER BY id DESC LIMIT 1`); if none, return `none`; otherwise delete every
row with that id and return it. -/
def delete_last_entry (s : Store) : Option Nat × Store :=
  if s.entries.isEmpty then (none, s)
  else
    let m := maxId s.entries
    (some m, { s with entries := s.entries.filter (fun e => e.id ≠ m) })

/-- `reset_ledger` (lines 106-109): `DELETE FROM entries`. -/
def reset_ledger (s : Store) : Store := { s with entries := [] }

/-- The `ORDER BY id DESC` comparison used by `get_last_entries`. -/
def byIdDesc (a b : Entry) : Prop := b.id ≤ a.id

instance : DecidableRel byIdDesc := fun a b =>
  inferInstanceAs (Decidable (b.id ≤ a.id))

instance : IsTotal Entry byIdDesc := ⟨fun a b => Nat.le_total b.id a.id⟩

instance : IsTrans Entry byIdDesc :=
  ⟨fun _ _ _ hab hbc => Nat.le_trans hbc hab⟩

/-- `get_last_entries` (lines 111-114): rows ordered by id descending,
limited to `limit`. -/
def get_last_entries (s : Store) (limit : Nat) : List Entry :=
  (List.insertionSort byIdDesc s.entries).take limit

/-- Digit run to a natural number. -/
def digitsToNat (l : List Char) : Nat :=
  l.foldl (fun a c => 10 * a + (c.toNat - 48)) 0

/-- Python `float()` on a plain decimal literal: optional sign, digits,
optional fractional part, at least one digit overall.  (Exponents and
`inf`/`nan` are not produced by any caller in this program and are left out
of the model.)  `none` models `float` raising `ValueError`. -/
def pyFloatCore (ds : List Char) (sgn : ℚ) : Option ℚ :=
  let ip := ds.takeWhile Char.isDigit
  let rest := ds.drop ip.length
  match rest with
  | [] => if ip.isEmpty then none else some (sgn * (digitsToNat ip : ℚ))
  | '.' :: tl =>
    let fp := tl.takeWhile Char.isDigit
    let rest2 := tl.drop fp.length
    if rest2.isEmpty && !(ip.isEmpty && fp.isEmpty) then
      some (sgn * ((digitsToNat ip : ℚ) + (digitsToNat fp : ℚ) / (10 : ℚ) ^ fp.length))
    else none
  | _ => none

/-- Python `float()` on a character list. -/
def pyFloat (cs : List Char) : Option ℚ :=
  match cs with
  | '+' :: r => pyFloatCore r 1
  | '-' :: r => pyFloatCore r (-1)
  | r => pyFloatCore r 1

/-- `parse_signed_token` (lines 117-119): strip commas, `float` the rest.
`none` models the `ValueError` caught by the caller. -/
def parse_signed_token (t : String) : Option ℚ :=
  pyFloat (t.data.filter (fun c => c ≠ ','))

/-- The characters matched by `\s` in the regex / stripped by `strip()`
(ASCII whitespace; the messages this bot matches contain no exotic space). -/
def isSpaceChar (c : Char) : Bool :=
  c == ' ' || c == '\t' || c == '\n' || c == '\r' || c == '\x0b' || c == '\x0c'

/-- `(?:,[0-9]{3})*` : zero or more groups of a comma and three digits. -/
def groups3 : List Char → Bool
  | [] => true
  | ',' :: a :: b :: c :: rest => a.isDigit && b.isDigit && c.isDigit && groups3 rest
  | _ => false

/-- The integer part of the regex alternatives:
`[0-9]{1,3}(?:,[0-9]{3})*` or `[0-9]+`.  The leading digit run of a match is
necessarily maximal (the character after it is `,`, `.` or the end), so a
deterministic scan decides the union of the two alternatives. -/
def intPartOk (l : List Char) : Bool :=
  let r := l.takeWhile Char.isDigit
  let rest := l.drop r.length
  if rest.isEmpty then !r.isEmpty
  else !r.isEmpty && decide (r.length ≤ 3) && groups3 rest

/-- Split at the first `'.'`, if any. -/
def splitDot : List Char → List Char × Option (List Char)
  | [] => ([], none)
  | '.' :: r => ([], some r)
  | c :: r => let p := splitDot r; (c :: p.1, p.2)

/-- Whether a character list is in the language of the regex capture group
`[+-][0-9]{1,3}(?:,[0-9]{3})*(?:\.\d+)?|[+-][0-9]+(?:\.\d+)?`. -/
def signedGroupOk : List Char → Bool
  | [] => false
  | c :: rest =>
    (c == '+' || c == '-') &&
    (match splitDot rest with
     | (i, none) => intPartOk i
     | (i, some f) => intPartOk i && !f.isEmpty && f.all Char.isDigit)

/-- `SINGLE_SIGN_NUMBER_RE.match` (line 39) on the (already `strip()`ped)
message text, returning `m.group(1)`.  The pattern is
`^\s*(GROUP)\s*$`; since the group can neither start nor end with
whitespace, it matches exactly when the whitespace-stripped text is in the
group language, and the capture is that stripped text. -/
def matchSignedToken (s : String) : Option String :=
  let body := ((s.data.dropWhile isSpaceChar).reverse.dropWhile isSpaceChar).reverse
  if signedGroupOk body then some (String.mk body) else none

/-- `message_handler` (lines 265-311), from the point after the
reply-to-message and admin checks: match the regex, parse the token, reject
magnitudes below `0.00001`, convert with the current rate and append the
entry.  `target_id`/`target_name` come from the replied-to user and `ts`
from the clock. -/
def message_handler (s : Store) (text : String) (target_id : Int)
    (target_name ts : String) : Store :=
  match matchSignedToken text with
  | none => s
  | some tok =>
    match parse_signed_token tok with
    | none => s
    | some val =>
      if |val| < 1 / 100000 then s
      else
        let rs := get_rate s
        let usdt := if rs.1 ≠ 0 then val / rs.1 else 0
        (add_entry rs.2 target_id target_name val usdt ts).2

/-- `add_cmd` reply branch (lines 395-407), after the admin check:
`float(args[0].replace(',',''))`, reject on `ValueError`, convert, append
for the replied-to user.  There is no magnitude check on this path. -/
def add_cmd_reply (s : Store) (arg : String) (target_id : Int)
    (target_name ts : String) : Store :=
  match pyFloat (arg.data.filter (fun c => c ≠ ',')) with
  | none => s
  | some val =>
    let rs := get_rate s
    let usdt := if rs.1 ≠ 0 then val / rs.1 else 0
    (add_entry rs.2 target_id target_name val usdt ts).2

/-- `add_cmd` two-argument branch (lines 409-420), after the admin check:
`float(args[1].replace(',',''))`, user id `0`, name taken literally.
There is no magnitude check on this path. -/
def add_cmd_named (s : Store) (name arg ts : String) : Store :=
  match pyFloat (arg.data.filter (fun c => c ≠ ',')) with
  | none => s
  | some val =>
    let rs := get_rate s
    let usdt := if rs.1 ≠ 0 then val / rs.1 else 0
    (add_entry rs.2 0 name val usdt ts).2

/-- `rate_cmd` (lines 314-337), after the admin check: with no argument only
reports; otherwise `float(args[0])`, rejecting a parse failure or a value
`≤ 0` (the `raise ValueError` inside the `try`), else `set_rate`. -/
def rate_cmd (s : Store) (arg : Option String) : Store :=
  match arg with
  | none => s
  | some a =>
    match pyFloat a.data with
    | none => s
    | some r => if r ≤ 0 then s else set_rate s r

/-- `SUM(amount_inr)` over the rows with a given username (build_report's
`GROUP BY username`, lines 168-172). -/
def sumInrBy (l : List Entry) (u : String) : ℚ :=
  ((l.filter (fun e => e.username = u)).map (fun e => e.amount_inr)).sum

/-- `SUM(amount_usdt)` over the rows with a given username. -/
def sumUsdtBy (l : List Entry) (u : String) : ℚ :=
  ((l.filter (fun e => e.username = u)).map (fun e => e.amount_usdt)).sum

/-- The groups of `GROUP BY username` with their sums, one triple per
distinct username (grouping keyed by the name alone, not the user id). -/
def groupTotals (l : List Entry) : List (String × ℚ × ℚ) :=
  ((l.map (fun e => e.username)).dedup).map
    (fun u => (u, sumInrBy l u, sumUsdtBy l u))

/-- `ORDER BY s_inr DESC` comparison on the per-user triples. -/
def byInrDesc (a b : String × ℚ × ℚ) : Prop := b.2.1 ≤ a.2.1

instance : DecidableRel byInrDesc := fun a b =>
  inferInstanceAs (Decidable (b.2.1 ≤ a.2.1))

instance : IsTotal (String × ℚ × ℚ) byInrDesc := ⟨fun a b => le_total b.2.1 a.2.1⟩

instance : IsTrans (String × ℚ × ℚ) byInrDesc :=
  ⟨fun _ _ _ hab hbc => le_trans hbc hab⟩

/-- build_report's `per_user` query (lines 168-172): grouped by username,
ordered by summed INR descending. -/
def per_user (l : List Entry) : List (String × ℚ × ℚ) :=
  List.insertionSort byInrDesc (groupTotals l)

/-- build_report's per-user section after the reorder-to-front step
(lines 200-221): take `last_user` from the first row of
`get_last_entries latest_n`; `if last_user:` is Python truthiness, so a
`None` or empty-string name skips the reorder; otherwise partition out the
matching row and, if found, put it in front of the rest in original order. -/
def reportUserRows (s : Store) (latest_n : Nat) : List (String × ℚ × ℚ) :=
  let pu := per_user s.entries
  let recent := get_last_entries s latest_n
  match recent with
  | [] => pu
  | e :: _ =>
    if e.username = "" then pu
    else
      let reordered := pu.filter (fun r => r.1 ≠ e.username)
      match pu.find? (fun r => r.1 = e.username) with
      | some f => f :: reordered
      | none => pu

/-- `SUM(CASE WHEN amount_inr>0 THEN amount_inr ELSE 0 END)` (line 180). -/
def gross_inr (l : List Entry) : ℚ :=
  (l.map (fun e => if 0 < e.amount_inr then e.amount_inr else 0)).sum

/-- `-(SUM(CASE WHEN amount_inr<0 THEN amount_inr ELSE 0 END))`
(lines 181, 188). -/
def refunded_inr (l : List Entry) : ℚ :=
  -((l.map (fun e => if e.amount_inr < 0 then e.amount_inr else 0)).sum)

/-- `SUM(CASE WHEN amount_usdt>0 THEN amount_usdt ELSE 0 END)` (line 182). -/
def gross_usdt (l : List Entry) : ℚ :=
  (l.map (fun e => if 0 < e.amount_usdt then e.amount_usdt else 0)).sum

/-- `-(SUM(CASE WHEN amount_usdt<0 THEN amount_usdt ELSE 0 END))`
(lines 183, 190). -/
def refunded_usdt (l : List Entry) : ℚ :=
  -((l.map (fun e => if e.amount_usdt < 0 then e.amount_usdt else 0)).sum)

/-- `net_inr = gross_inr - refunded_inr` (line 192). -/
def net_inr (l : List Entry) : ℚ := gross_inr l - refunded_inr l

/-- `net_usdt = gross_usdt - refunded_usdt` (line 193). -/
def net_usdt (l : List Entry) : ℚ := gross_usdt l - refunded_usdt l

/-- Well-formedness the SQLite schema guarantees: ids strictly increase in
insertion order and are all below the autoincrement counter. -/
def WF (s : Store) : Prop :=
  s.entries.Pairwise (fun a b => a.id < b.id) ∧ ∀ e ∈ s.entries, e.id < s.nextId

/-- Primary and secondary amount share a sign (both `≥ 0` or both `≤ 0`). -/
def sameSign (p q : ℚ) : Prop := (0 ≤ p ∧ 0 ≤ q) ∨ (p ≤ 0 ∧ q ≤ 0)

instance (p q : ℚ) : Decidable (sameSign p q) :=
  inferInstanceAs (Decidable (_ ∨ _))

/-- Every stored entry's amounts share a sign. -/
def SignOK (s : Store) : Prop :=
  ∀ e ∈ s.entries, sameSign e.amount_inr e.amount_usdt

/-- The rate `get_rate` would report is non-negative. -/
def RateOK (s : Store) : Prop := 0 ≤ rateValue s

/-- One store-mutating step of the program: the reply-message recording
path, the two `/add` branches, `/rate`, `/undo`, `/reset`, and the read of
the rate a report performs (which can write the default back). -/
inductive Step : Store → Store → Prop
  | message (s : Store) (text : String) (tid : Int) (tname ts : String) :
      Step s (message_handler s text tid tname ts)
  | addReply (s : Store) (arg : String) (tid : Int) (tname ts : String) :
      Step s (add_cmd_reply s arg tid tname ts)
  | addNamed (s : Store) (name arg ts : String) :
      Step s (add_cmd_named s name arg ts)
  | rateCmd (s : Store) (arg : Option String) :
      Step s (rate_cmd s arg)
  | undo (s : Store) :
      Step s (delete_last_entry s).2
  | reset (s : Store) :
      Step s (reset_ledger s)
  | reportRead (s : Store) :
      Step s (get_rate s).2

/-! ### Helper lemmas about `maxId` -/

/-- The `maxId` fold is bounded by any bound on the ids and the seed. -/
lemma foldl_max_le (l : List Entry) : ∀ a n : Nat, a ≤ n → (∀ e ∈ l, e.id ≤ n) →
    l.foldl (fun acc e => max acc e.id) a ≤ n := by
  induction l with
  | nil => intro a n ha _; simpa using ha
  | cons x t ih =>
    intro a n ha h
    simp only [List.foldl_cons]
    exact ih _ n (max_le ha (h x (by simp))) (fun e he => h e (by simp [he]))

/-- The seed is below the `maxId` fold. -/
lemma seed_le_foldl_max (l : List Entry) : ∀ a : Nat, a ≤ l.foldl (fun acc e => max acc e.id) a := by
  induction l with
  | nil => intro a; simp
  | cons x t ih =>
    intro a
    simp only [List.foldl_cons]
    exact le_trans (Nat.le_max_left a x.id) (ih _)

/-- Every member's id is below the `maxId` fold. -/
lemma mem_le_foldl_max (l : List Entry) : ∀ a : Nat, ∀ e ∈ l, e.id ≤ l.foldl (fun acc e => max acc e.id) a := by
  induction l with
  | nil => intro a e he; simp at he
  | cons x t ih =>
    intro a e he
    simp only [List.foldl_cons]
    rcases List.mem_cons.mp he with rfl | ht
    · exact le_trans (Nat.le_max_right a e.id) (seed_le_foldl_max t _)
    · exact ih _ e ht

lemma le_maxId_of_mem {l : List Entry} {e : Entry} (he : e ∈ l) : e.id ≤ maxId l :=
  mem_le_foldl_max l 0 e he

lemma maxId_le {l : List Entry} {n : Nat} (h : ∀ e ∈ l, e.id ≤ n) : maxId l ≤ n :=
  foldl_max_le l 0 n (Nat.zero_le n) h

/-- Appending a row whose id dominates makes it the `MAX(id)` row. -/
lemma maxId_concat {l : List Entry} {x : Entry} (h : ∀ e ∈ l, e.id ≤ x.id) :
    maxId (l ++ [x]) = x.id := by
  unfold maxId
  rw [List.foldl_append]
  simp only [List.foldl_cons, List.foldl_nil]
  exact Nat.max_eq_right (foldl_max_le l 0 x.id (Nat.zero_le _) h)

/-! ### Helper lemmas about the store operations -/

/-- `add_entry`, resolved: with a fresh autoincrement id the UPDATE hits
exactly the just-inserted row, so the stored row carries the exact
`amount_usdt` argument. -/
lemma add_entry_result (s : Store) (uid : Int) (uname : String) (inr usdt : ℚ)
    (ts : String) (h : ∀ e ∈ s.entries, e.id < s.nextId) :
    (add_entry s uid uname inr usdt ts).2 =
      { entries := s.entries ++
          [{ id := s.nextId, user_id := uid, username := uname,
             amount_inr := inr, amount_usdt := usdt, ts := ts }],
        nextId := s.nextId + 1, rateVal := s.rateVal } := by
  unfold add_entry
  have hmax : maxId (s.entries ++
      [{ id := s.nextId, user_id := uid, username := uname, amount_inr := inr,
         amount_usdt := pyOr (pyAnd inr usdt) 0, ts := ts }]) = s.nextId :=
    maxId_concat (fun e he => Nat.le_of_lt (h e he))
  simp only [hmax, List.map_append]
  have hold : s.entries.map
      (fun e => if e.id = s.nextId then { e with amount_usdt := usdt } else e) = s.entries := by
    have := List.map_congr_left
      (l := s.entries)
      (f := fun e => if e.id = s.nextId then { e with amount_usdt := usdt } else e)
      (g := id)
      (fun e he => by simp [Nat.ne_of_lt (h e he)])
    simpa using this
  rw [hold]
  simp

/-- `get_rate` never touches the entries table. -/
lemma get_rate_entries (s : Store) : (get_rate s).2.entries = s.entries := by
  unfold get_rate set_rate
  rcases s.rateVal with _ | v
  · rfl
  · cases v <;> rfl

/-- `get_rate` never touches the autoincrement counter. -/
lemma get_rate_nextId (s : Store) : (get_rate s).2.nextId = s.nextId := by
  unfold get_rate set_rate
  rcases s.rateVal with _ | v
  · rfl
  · cases v <;> rfl

/-- The rate `get_rate` reports, as a function of the stored `meta` row. -/
lemma rateValue_def (s : Store) :
    rateValue s = (match s.rateVal with
      | some (MetaVal.num q) => q
      | some (MetaVal.text _) => DEFAULT_RATE
      | none => DEFAULT_RATE) := by
  unfold rateValue get_rate
  rcases s.rateVal with _ | v
  · rfl
  · cases v <;> rfl

/-- Stores with the same `meta` row report the same rate. -/
lemma rateValue_congr {s s2 : Store} (h : s2.rateVal = s.rateVal) :
    rateValue s2 = rateValue s := by
  rw [rateValue_def, rateValue_def, h]

/-- The rate reported right after `get_rate` equals the one it returned. -/
lemma rateValue_get_rate_snd (s : Store) : rateValue (get_rate s).2 = rateValue s := by
  rcases h : s.rateVal with _ | v
  · simp [rateValue, get_rate, set_rate, h, DEFAULT_RATE]
  · cases v <;> simp [rateValue, get_rate, set_rate, h]

/-- The rate reported by `get_rate` equals `rateValue`. -/
lemma get_rate_fst (s : Store) : (get_rate s).1 = rateValue s := rfl

/-- Well-formedness survives `get_rate` (it can only touch the meta row). -/
lemma WF_get_rate {s : Store} (h : WF s) : WF (get_rate s).2 := by
  unfold WF
  rw [get_rate_entries, get_rate_nextId]
  exact h

/-- Well-formedness survives `add_entry`. -/
lemma WF_add_entry {s : Store} (h : WF s) (uid : Int) (uname : String)
    (inr usdt : ℚ) (ts : String) : WF (add_entry s uid uname inr usdt ts).2 := by
  rw [add_entry_result s uid uname inr usdt ts h.2]
  constructor
  · rw [List.pairwise_append]
    refine ⟨h.1, List.pairwise_singleton _ _, ?_⟩
    intro a ha b hb
    simp only [List.mem_singleton] at hb
    subst hb
    exact h.2 a ha
  · intro e he
    rcases List.mem_append.mp he with h1 | h2
    · exact Nat.lt_succ_of_lt (h.2 e h1)
    · simp only [List.mem_singleton] at h2
      subst h2
      exact Nat.lt_succ_self _

/-- The head of the `ORDER BY id DESC` listing is a stored entry carrying
the maximal id. -/
lemma sortDesc_head {s : Store} (hne : s.entries ≠ []) :
    ∃ h t, List.insertionSort byIdDesc s.entries = h :: t ∧
      h ∈ s.entries ∧ h.id = maxId s.entries := by
  have hperm := List.perm_insertionSort byIdDesc s.entries
  have hsorted := List.sorted_insertionSort byIdDesc s.entries
  cases hs : List.insertionSort byIdDesc s.entries with
  | nil =>
    exact absurd (hperm.symm.trans (hs ▸ List.Perm.refl _)).eq_nil hne
  | cons h t =>
    rw [hs] at hperm hsorted
    have hmem : h ∈ s.entries := hperm.subset (by simp)
    refine ⟨h, t, rfl, hmem, ?_⟩
    refine Nat.le_antisymm (le_maxId_of_mem hmem) (maxId_le ?_)
    intro e he
    have : e ∈ h :: t := hperm.symm.subset he
    rcases List.mem_cons.mp this with rfl | ht
    · exact Nat.le_refl _
    · exact List.rel_of_sorted_cons hsorted e ht

/-- In a table with strictly increasing ids, deleting every row with a
given stored id removes exactly one row. -/
lemma filter_ne_length {l : List Entry} {m : Nat}
    (hp : l.Pairwise (fun a b => a.id < b.id))
    (hm : m ∈ l.map (fun e => e.id)) :
    (l.filter (fun e => e.id ≠ m)).length + 1 = l.length := by
  induction l with
  | nil => simp at hm
  | cons x t ih =>
    have hx := (List.pairwise_cons.mp hp).1
    have ht := (List.pairwise_cons.mp hp).2
    by_cases hxm : x.id = m
    · subst hxm
      have hdrop : (x :: t).filter (fun e => e.id ≠ x.id) = t.filter (fun e => e.id ≠ x.id) := by
        simp [List.filter_cons]
      have hkeep : t.filter (fun e => e.id ≠ x.id) = t :=
        List.filter_eq_self.mpr (fun a ha => by simpa using Nat.ne_of_gt (hx a ha))
      rw [hdrop, hkeep]
      simp
    · have hmt : m ∈ t.map (fun e => e.id) := by
        rcases List.mem_map.mp hm with ⟨e, he, rfl⟩
        rcases List.mem_cons.mp he with rfl | het
        · exact absurd rfl hxm
        · exact List.mem_map.mpr ⟨e, het, rfl⟩
      have hstep : (x :: t).filter (fun e => e.id ≠ m) = x :: t.filter (fun e => e.id ≠ m) := by
        simp [List.filter_cons, hxm]
      rw [hstep]
      have := ih ht hmt
      simp only [List.length_cons]
      omega

/-- Splitting the positive-case SQL sum into a filtered sum: summing
`CASE WHEN g e > 0 THEN g e ELSE 0 END` equals summing `g` over the rows
with `g e ≥ 0` (a zero row contributes zero either way). -/
lemma sum_case_pos (l : List Entry) (g : Entry → ℚ) :
    (l.map (fun e => if 0 < g e then g e else 0)).sum =
      ((l.filter (fun e => 0 ≤ g e)).map g).sum := by
  induction l with
  | nil => simp
  | cons x t ih =>
    by_cases hx : 0 < g x
    · have hx2 : 0 ≤ g x := le_of_lt hx
      simp [List.filter_cons, hx, hx2, ih]
    · by_cases hx0 : 0 ≤ g x
      · have hgx : g x = 0 := le_antisymm (not_lt.mp hx) hx0
        simp [List.filter_cons, hx, hx0, ih, hgx]
      · simp [List.filter_cons, hx, hx0, ih]

/-- The negative-case SQL sum equals summing `g` over the negative rows. -/
lemma sum_case_neg (l : List Entry) (g : Entry → ℚ) :
    (l.map (fun e => if g e < 0 then g e else 0)).sum =
      ((l.filter (fun e => g e < 0)).map g).sum := by
  induction l with
  | nil => simp
  | cons x t ih =>
    by_cases hx : g x < 0
    · simp [List.filter_cons, hx, ih]
    · simp [List.filter_cons, hx, ih]

/-! ### Claim theorems -/

/-- C2: for every call to `add_entry`, the entry as finally stored carries
`amount_usdt` exactly as passed by the caller — never the truthiness
fallback written by the initial INSERT — for every `amount_inr`, including
`amount_inr = 0`; all previously stored rows are untouched. -/
theorem C2_append_stores_exact_secondary (s : Store) (hwf : WF s) (uid : Int)
    (uname : String) (inr usdt : ℚ) (ts : String) :
    (add_entry s uid uname inr usdt ts).2.entries =
      s.entries ++ [{ id := s.nextId, user_id := uid, username := uname,
                      amount_inr := inr, amount_usdt := usdt, ts := ts }] := by
  rw [add_entry_result s uid uname inr usdt ts hwf.2]

/-- C2 witness: appending with `amount_inr = 0` and `amount_usdt = 7`
stores `7`, not the `0.0` the INSERT's truthiness expression produced. -/
theorem C2_append_stores_exact_secondary_witness :
    (add_entry init_db 1 "A" 0 7 "t").2.entries =
      [{ id := 1, user_id := 1, username := "A", amount_inr := 0,
         amount_usdt := 7, ts := "t" }] := by
  have h := C2_append_stores_exact_secondary init_db
    ⟨List.Pairwise.nil, by simp [init_db]⟩ 1 "A" 0 7 "t"
  simpa [init_db] using h

/-- C5: the totals block satisfies: `gross` equals the sum over the
non-negative rows, `refunded` equals the negation of the sum over the
negative rows, `net = gross - refunded` exactly, for both currencies, and
the empty table yields all-zero totals. -/
theorem C5_totals_block (s : Store) :
    gross_inr s.entries =
      ((s.entries.filter (fun e => 0 ≤ e.amount_inr)).map (fun e => e.amount_inr)).sum ∧
    refunded_inr s.entries =
      -(((s.entries.filter (fun e => e.amount_inr < 0)).map (fun e => e.amount_inr)).sum) ∧
    net_inr s.entries = gross_inr s.entries - refunded_inr s.entries ∧
    gross_usdt s.entries =
      ((s.entries.filter (fun e => 0 ≤ e.amount_usdt)).map (fun e => e.amount_usdt)).sum ∧
    refunded_usdt s.entries =
      -(((s.entries.filter (fun e => e.amount_usdt < 0)).map (fun e => e.amount_usdt)).sum) ∧
    net_usdt s.entries = gross_usdt s.entries - refunded_usdt s.entries ∧
    gross_inr [] = 0 ∧ refunded_inr [] = 0 ∧ net_inr [] = 0 ∧
    gross_usdt [] = 0 ∧ refunded_usdt [] = 0 ∧ net_usdt [] = 0 := by
  refine ⟨sum_case_pos _ _, ?_, rfl, sum_case_pos _ _, ?_, rfl,
    by simp [gross_inr], by simp [refunded_inr],
    by simp [net_inr, gross_inr, refunded_inr],
    by simp [gross_usdt], by simp [refunded_usdt],
    by simp [net_usdt, gross_usdt, refunded_usdt]⟩
  · unfold refunded_inr
    rw [sum_case_neg]
  · unfold refunded_usdt
    rw [sum_case_neg]

/-- C6: the program's rate-update operation rejects every value `v ≤ 0`
(the store is returned unchanged, so the prior rate is retained) and only
values `v > 0` replace the stored rate, which then reads back as exactly
`v`. -/
theorem C6_rate_update_guard (s : Store) (a : String) (v : ℚ)
    (hp : pyFloat a.data = some v) :
    (v ≤ 0 → rate_cmd s (some a) = s) ∧
    (0 < v → (rate_cmd s (some a)).rateVal = some (MetaVal.num v) ∧
             (rate_cmd s (some a)).entries = s.entries ∧
             rateValue (rate_cmd s (some a)) = v) := by
  constructor
  · intro hv
    simp [rate_cmd, hp, hv]
  · intro hv
    have hv2 : ¬ v ≤ 0 := not_le.mpr hv
    simp [rate_cmd, hp, hv2, set_rate, rateValue_def]

/-- C6 witness: `/rate -1` leaves the store untouched; `/rate 2` stores 2. -/
theorem C6_rate_update_guard_witness :
    rate_cmd init_db (some "-1") = init_db ∧
    (rate_cmd init_db (some "2")).rateVal = some (MetaVal.num 2) := by
  constructor
  · exact (C6_rate_update_guard init_db "-1" (-1)
      (by simp +decide [pyFloat, pyFloatCore, digitsToNat])).1 (by norm_num)
  · exact ((C6_rate_update_guard init_db "2" 2
      (by simp +decide [pyFloat, pyFloatCore, digitsToNat])).2 (by norm_num)).1

/-- A store whose `meta` rate row holds a non-numeric string. -/
def badRateStore : Store :=
  { entries := [], nextId := 1, rateVal := some (MetaVal.text "not-a-number") }

/-- C7 counterexample: with a present but non-numeric stored rate value,
`get_rate` returns the default but does NOT persist it — the store is
returned unchanged, still holding the malformed value, which differs from
the persisted default the claim promises. -/
theorem C7_counterexample :
    (get_rate badRateStore).1 = DEFAULT_RATE ∧
    (get_rate badRateStore).2 = badRateStore ∧
    badRateStore.rateVal = some (MetaVal.text "not-a-number") ∧
    some (MetaVal.text "not-a-number") ≠ some (MetaVal.num DEFAULT_RATE) := by
  exact ⟨rfl, rfl, rfl, by decide⟩

/-- C7 amended: a present but non-numeric stored rate makes `get_rate`
return the configured default with the store unchanged (no healing); the
default is persisted only when the rate row is entirely absent. -/
theorem C7_amended_fallback (s : Store) :
    (∀ t : String, s.rateVal = some (MetaVal.text t) →
        get_rate s = (DEFAULT_RATE, s)) ∧
    (s.rateVal = none →
        (get_rate s).1 = DEFAULT_RATE ∧
        (get_rate s).2.rateVal = some (MetaVal.num DEFAULT_RATE)) := by
  constructor
  · intro t ht
    simp [get_rate, ht]
  · intro h0
    simp [get_rate, set_rate, h0]

/-- C7 amended witness: the malformed-value store is left unchanged; a
store with no rate row gets the default written back. -/
theorem C7_amended_fallback_witness :
    get_rate badRateStore = (DEFAULT_RATE, badRateStore) ∧
    (get_rate { entries := [], nextId := 1, rateVal := none }).2.rateVal =
      some (MetaVal.num DEFAULT_RATE) := by
  constructor
  · exact (C7_amended_fallback badRateStore).1 "not-a-number" rfl
  · exact ((C7_amended_fallback
      { entries := [], nextId := 1, rateVal := none }).2 rfl).2

/-- C9: after `reset_ledger` the entry store is empty — `get_last_entries`
returns the empty sequence for every limit — while the stored rate value
and the rate it reports are exactly as before. -/
theorem C9_reset_frame (s : Store) (limit : Nat) :
    get_last_entries (reset_ledger s) limit = [] ∧
    (reset_ledger s).entries = [] ∧
    (reset_ledger s).rateVal = s.rateVal ∧
    rateValue (reset_ledger s) = rateValue s := by
  refine ⟨?_, rfl, rfl, rateValue_congr rfl⟩
  simp [get_last_entries, reset_ledger]

/-- C8: on a non-empty store, `delete_last_entry` returns the maximal
stored id, removes exactly the one entry carrying it (every other entry is
kept, nothing else changes membership), and a following `recent(1)` never
contains the deleted id; on the empty store it returns `none`, deletes
nothing, and is idempotent. -/
theorem C8_delete_most_recent (s : Store) (hwf : WF s) :
    (s.entries = [] →
      delete_last_entry s = (none, s) ∧
      delete_last_entry (delete_last_entry s).2 = (none, s)) ∧
    (s.entries ≠ [] →
      (delete_last_entry s).1 = some (maxId s.entries) ∧
      maxId s.entries ∈ s.entries.map (fun e => e.id) ∧
      (delete_last_entry s).2.entries.length + 1 = s.entries.length ∧
      (∀ e ∈ (delete_last_entry s).2.entries,
         e ∈ s.entries ∧ e.id ≠ maxId s.entries) ∧
      (∀ e ∈ s.entries, e.id ≠ maxId s.entries →
         e ∈ (delete_last_entry s).2.entries) ∧
      (∀ e ∈ get_last_entries (delete_last_entry s).2 1,
         e.id ≠ maxId s.entries)) := by
  constructor
  · intro hem
    have h1 : delete_last_entry s = (none, s) := by
      simp [delete_last_entry, hem]
    exact ⟨h1, by rw [h1]; exact h1⟩
  · intro hne
    have hE : s.entries.isEmpty = false := List.isEmpty_eq_false.mpr hne
    have hdel : delete_last_entry s =
        (some (maxId s.entries),
         { s with entries := s.entries.filter (fun e => e.id ≠ maxId s.entries) }) := by
      simp [delete_last_entry, hE]
    obtain ⟨h, t, hs, hmem, hid⟩ := sortDesc_head hne
    have hmax_mem : maxId s.entries ∈ s.entries.map (fun e => e.id) :=
      List.mem_map.mpr ⟨h, hmem, hid⟩
    have hfilter_mem : ∀ e ∈ (delete_last_entry s).2.entries,
        e ∈ s.entries ∧ e.id ≠ maxId s.entries := by
      intro e he
      rw [hdel] at he
      have := List.mem_filter.mp he
      exact ⟨this.1, by simpa using this.2⟩
    refine ⟨by rw [hdel], hmax_mem, ?_, hfilter_mem, ?_, ?_⟩
    · rw [hdel]
      exact filter_ne_length hwf.1 hmax_mem
    · intro e he hne2
      rw [hdel]
      exact List.mem_filter.mpr ⟨he, by simpa using hne2⟩
    · intro e he
      have he2 : e ∈ (delete_last_entry s).2.entries := by
        have h3 : e ∈ List.insertionSort byIdDesc (delete_last_entry s).2.entries :=
          List.mem_of_mem_take he
        exact (List.perm_insertionSort byIdDesc _).subset h3
      exact (hfilter_mem e he2).2

/-- C8 witness: on a two-entry store, deleting removes exactly entry id 2
and `recent(1)` no longer shows it; the empty store returns `none` twice. -/
theorem C8_delete_most_recent_witness :
    (delete_last_entry init_db = (none, init_db) ∧
     delete_last_entry (delete_last_entry init_db).2 = (none, init_db)) ∧
    ((delete_last_entry
        { entries := [{ id := 1, user_id := 1, username := "A", amount_inr := 5,
                        amount_usdt := 1, ts := "t1" },
                      { id := 2, user_id := 2, username := "B", amount_inr := 7,
                        amount_usdt := 2, ts := "t2" }],
          nextId := 3, rateVal := some (MetaVal.num DEFAULT_RATE) }).1 =
       some 2) := by
  constructor
  · exact (C8_delete_most_recent init_db
      ⟨List.Pairwise.nil, by simp [init_db]⟩).1 rfl
  · have h := (C8_delete_most_recent
      { entries := [{ id := 1, user_id := 1, username := "A", amount_inr := 5,
                      amount_usdt := 1, ts := "t1" },
                    { id := 2, user_id := 2, username := "B", amount_inr := 7,
                      amount_usdt := 2, ts := "t2" }],
        nextId := 3, rateVal := some (MetaVal.num DEFAULT_RATE) }
      ⟨by decide, by decide⟩).2 (by decide)
    have hmax : maxId
        [({ id := 1, user_id := 1, username := "A", amount_inr := 5,
            amount_usdt := 1, ts := "t1" } : Entry),
         { id := 2, user_id := 2, username := "B", amount_inr := 7,
            amount_usdt := 2, ts := "t2" }] = 2 := by decide
    rw [← hmax]
    exact h.1

/-- Dividing by a non-negative rate (or substituting 0 when the rate is 0)
preserves the sign. -/
lemma sameSign_div {val rate : ℚ} (hr : 0 ≤ rate) :
    sameSign val (if rate ≠ 0 then val / rate else 0) := by
  by_cases h0 : rate = 0
  · rw [if_neg (by simp [h0])]
    rcases le_total 0 val with hv | hv
    · exact Or.inl ⟨hv, le_refl 0⟩
    · exact Or.inr ⟨hv, le_refl 0⟩
  · rw [if_pos h0]
    rcases le_total 0 val with hv | hv
    · exact Or.inl ⟨hv, div_nonneg hv hr⟩
    · exact Or.inr ⟨hv, div_nonpos_iff.mpr (Or.inr ⟨hv, hr⟩)⟩

/-- C1: for every reply-message text whose regex match parses to a value of
magnitude at least `0.00001`, the handler appends exactly one new entry:
`primaryAmount` is the parsed value, `secondaryAmount` is the parsed value
divided by the rate in force (or 0 when that rate is 0), and the two share
a sign (the rate the store reports being non-negative, as it is in every
reachable state). -/
theorem C1_record_adjustment (s : Store) (text : String) (tid : Int)
    (tname ts : String) (tok : String) (val : ℚ)
    (hwf : WF s)
    (hm : matchSignedToken text = some tok)
    (hp : parse_signed_token tok = some val)
    (hmag : 1 / 100000 ≤ |val|)
    (hrate : 0 ≤ rateValue s) :
    ∃ e : Entry,
      (message_handler s text tid tname ts).entries = s.entries ++ [e] ∧
      e.amount_inr = val ∧
      e.amount_usdt = (if rateValue s ≠ 0 then val / rateValue s else 0) ∧
      sameSign e.amount_inr e.amount_usdt := by
  have hnotlt : ¬ (|val| < 1 / 100000) := not_lt.mpr hmag
  have hids : ∀ e ∈ (get_rate s).2.entries, e.id < (get_rate s).2.nextId := by
    rw [get_rate_entries, get_rate_nextId]
    exact hwf.2
  refine ⟨{ id := (get_rate s).2.nextId, user_id := tid, username := tname,
            amount_inr := val,
            amount_usdt := if rateValue s ≠ 0 then val / rateValue s else 0,
            ts := ts }, ?_, rfl, rfl, sameSign_div hrate⟩
  simp only [message_handler, hm, hp]
  rw [if_neg hnotlt]
  rw [add_entry_result (get_rate s).2 tid tname val
      (if (get_rate s).1 ≠ 0 then val / (get_rate s).1 else 0) ts hids]
  rw [get_rate_entries]
  rfl

/-- C1 witness: recording the reply token `" +1,234.5 "` on a fresh store
appends one entry with primary `1234.5` and secondary `1234.5 / 93.5`. -/
theorem C1_record_adjustment_witness :
    ∃ e : Entry,
      (message_handler init_db " +1,234.5 " 9 "Bob" "t").entries =
        init_db.entries ++ [e] ∧
      e.amount_inr = 2469 / 2 ∧
      e.amount_usdt =
        (if rateValue init_db ≠ 0 then (2469 / 2) / rateValue init_db else 0) ∧
      sameSign e.amount_inr e.amount_usdt :=
  C1_record_adjustment init_db " +1,234.5 " 9 "Bob" "t" "+1,234.5" (2469 / 2)
    ⟨List.Pairwise.nil, by simp [init_db]⟩
    (by decide)
    (by simp +decide [parse_signed_token, pyFloat, pyFloatCore, digitsToNat]
        norm_num)
    (by rw [abs_of_nonneg (by norm_num)]
        norm_num)
    (by rw [show rateValue init_db = DEFAULT_RATE from rfl]
        norm_num [DEFAULT_RATE])

/-- C3 counterexample: `/add 0` (reply form) is an entry-creating path with
no magnitude check — it creates an entry whose `primaryAmount` is `0`,
whose magnitude is below `0.00001`, contradicting the claim that no such
entry is ever created on any entry-creating path. -/
theorem C3_counterexample :
    (add_cmd_reply init_db "0" 5 "Bob" "t").entries =
      [{ id := 1, user_id := 5, username := "Bob", amount_inr := 0,
         amount_usdt := 0, ts := "t" }] ∧
    |(0 : ℚ)| < 1 / 100000 := by
  constructor
  · have hp : pyFloat ("0".data.filter (fun c => c ≠ ',')) = some 0 := by
      simp +decide [pyFloat, pyFloatCore, digitsToNat]
    simp only [add_cmd_reply, hp]
    rw [show get_rate init_db = (DEFAULT_RATE, init_db) from rfl]
    have hne : DEFAULT_RATE ≠ 0 := by norm_num [DEFAULT_RATE]
    rw [if_pos hne, zero_div]
    rw [add_entry_result init_db 5 "Bob" 0 0 "t" (by simp [init_db])]
    simp [init_db]
  · norm_num

/-- C3 amended: on the reply-message path, tokens parsing below the
`0.00001` magnitude and malformed tokens create no entry (the store is
unchanged); on both `/add` paths malformed amounts create no entry — but
the `/add` paths perform no magnitude check, so `/add` can create an entry
of magnitude below `0.00001` (see the counterexample). -/
theorem C3_amended_rejections (s : Store) (text arg : String) (tid : Int)
    (tname name ts : String) :
    (∀ tok val, matchSignedToken text = some tok →
        parse_signed_token tok = some val → |val| < 1 / 100000 →
        message_handler s text tid tname ts = s) ∧
    (matchSignedToken text = none → message_handler s text tid tname ts = s) ∧
    (∀ tok, matchSignedToken text = some tok → parse_signed_token tok = none →
        message_handler s text tid tname ts = s) ∧
    (pyFloat (arg.data.filter (fun c => c ≠ ',')) = none →
        add_cmd_reply s arg tid tname ts = s ∧ add_cmd_named s name arg ts = s) := by
    refine ⟨?_, ?_, ?_, ?_⟩
    · intro tok val hm hp hlt
      simp only [message_handler, hm, hp]
      rw [if_pos hlt]
    · intro hm
      simp only [message_handler, hm]
    · intro tok hm hp
      simp only [message_handler, hm, hp]
    · intro hp
      constructor
      · simp only [add_cmd_reply, hp]
      · simp only [add_cmd_named, hp]

/-- C3 amended witness: the tiny token `+0.000001` leaves the store
unchanged on the message path; the malformed amount `x` leaves it unchanged
on both `/add` paths. -/
theorem C3_amended_rejections_witness :
    message_handler init_db "+0.000001" 5 "Bob" "t" = init_db ∧
    add_cmd_reply init_db "x" 5 "Bob" "t" = init_db ∧
    add_cmd_named init_db "N" "x" "t" = init_db := by
  have hpx : pyFloat ("x".data.filter (fun c => c ≠ ',')) = none := by
    simp +decide [pyFloat, pyFloatCore]
  refine ⟨?_, ?_, ?_⟩
  · exact (C3_amended_rejections init_db "+0.000001" "x" 5 "Bob" "N" "t").1
      "+0.000001" (1 / 1000000)
      (by decide)
      (by simp +decide [parse_signed_token, pyFloat, pyFloatCore, digitsToNat])
      (by rw [abs_of_nonneg (by norm_num)]
          norm_num)
  · exact ((C3_amended_rejections init_db "+0.000001" "x" 5 "Bob" "N" "t").2.2.2
      hpx).1
  · exact ((C3_amended_rejections init_db "+0.000001" "x" 5 "Bob" "N" "t").2.2.2
      hpx).2

/-- A store with the same `meta` row as a rate-safe store is rate-safe. -/
lemma RateOK_of_same_rateVal {s s2 : Store} (h : s2.rateVal = s.rateVal)
    (hr : RateOK s) : RateOK s2 := by
  unfold RateOK at hr ⊢
  rw [rateValue_congr h]
  exact hr

/-- The common entry-recording body (used by the reply-message path and
both `/add` branches) preserves well-formedness, the sign invariant, and
rate non-negativity. -/
lemma record_preserves (s : Store) (uid : Int) (uname ts : String) (val : ℚ)
    (hwf : WF s) (hsign : SignOK s) (hrate : RateOK s) :
    WF (add_entry (get_rate s).2 uid uname val
        (if (get_rate s).1 ≠ 0 then val / (get_rate s).1 else 0) ts).2 ∧
    SignOK (add_entry (get_rate s).2 uid uname val
        (if (get_rate s).1 ≠ 0 then val / (get_rate s).1 else 0) ts).2 ∧
    RateOK (add_entry (get_rate s).2 uid uname val
        (if (get_rate s).1 ≠ 0 then val / (get_rate s).1 else 0) ts).2 := by
  have hids : ∀ e ∈ (get_rate s).2.entries, e.id < (get_rate s).2.nextId := by
    rw [get_rate_entries, get_rate_nextId]
    exact hwf.2
  have hres := add_entry_result (get_rate s).2 uid uname val
    (if (get_rate s).1 ≠ 0 then val / (get_rate s).1 else 0) ts hids
  refine ⟨WF_add_entry (WF_get_rate hwf) _ _ _ _ _, ?_, ?_⟩
  · intro e he
    rw [hres] at he
    simp only [List.mem_append, List.mem_singleton] at he
    rcases he with h1 | h2
    · rw [get_rate_entries] at h1
      exact hsign e h1
    · subst h2
      exact sameSign_div hrate
  · unfold RateOK
    have hframe : (add_entry (get_rate s).2 uid uname val
        (if (get_rate s).1 ≠ 0 then val / (get_rate s).1 else 0) ts).2.rateVal =
        (get_rate s).2.rateVal := rfl
    rw [rateValue_congr hframe, rateValue_get_rate_snd]
    exact hrate

/-- C10: every entry ever stored shares a sign between its primary and
secondary amount: the invariant holds in the initial store and is preserved
by every store-mutating step of the program (along with well-formedness and
rate non-negativity, which make the conjunction inductive). -/
theorem C10_sign_invariant :
    (WF init_db ∧ SignOK init_db ∧ RateOK init_db) ∧
    (∀ s s2 : Store, Step s s2 → WF s → SignOK s → RateOK s →
      WF s2 ∧ SignOK s2 ∧ RateOK s2) := by
  constructor
  · refine ⟨⟨List.Pairwise.nil, by simp [init_db]⟩, ?_, ?_⟩
    · intro e he
      simp [init_db] at he
    · unfold RateOK
      rw [show rateValue init_db = DEFAULT_RATE from rfl]
      norm_num [DEFAULT_RATE]
  · intro s s2 hstep hwf hsign hrate
    cases hstep with
    | message text tid tname ts =>
      cases hm : matchSignedToken text with
      | none =>
        simp only [message_handler, hm]
        exact ⟨hwf, hsign, hrate⟩
      | some tok =>
        cases hp : parse_signed_token tok with
        | none =>
          simp only [message_handler, hm, hp]
          exact ⟨hwf, hsign, hrate⟩
        | some val =>
          by_cases hlt : |val| < 1 / 100000
          · simp only [message_handler, hm, hp]
            rw [if_pos hlt]
            exact ⟨hwf, hsign, hrate⟩
          · simp only [message_handler, hm, hp]
            rw [if_neg hlt]
            exact record_preserves s tid tname ts val hwf hsign hrate
    | addReply arg tid tname ts =>
      cases hp : pyFloat (arg.data.filter (fun c => c ≠ ',')) with
      | none =>
        simp only [add_cmd_reply, hp]
        exact ⟨hwf, hsign, hrate⟩
      | some val =>
        simp only [add_cmd_reply, hp]
        exact record_preserves s tid tname ts val hwf hsign hrate
    | addNamed name arg ts =>
      cases hp : pyFloat (arg.data.filter (fun c => c ≠ ',')) with
      | none =>
        simp only [add_cmd_named, hp]
        exact ⟨hwf, hsign, hrate⟩
      | some val =>
        simp only [add_cmd_named, hp]
        exact record_preserves s 0 name ts val hwf hsign hrate
    | rateCmd arg =>
      cases arg with
      | none => exact ⟨hwf, hsign, hrate⟩
      | some a =>
        cases hp : pyFloat a.data with
        | none =>
          simp only [rate_cmd, hp]
          exact ⟨hwf, hsign, hrate⟩
        | some r =>
          by_cases hr : r ≤ 0
          · simp only [rate_cmd, hp]
            rw [if_pos hr]
            exact ⟨hwf, hsign, hrate⟩
          · simp only [rate_cmd, hp]
            rw [if_neg hr]
            refine ⟨hwf, hsign, ?_⟩
            unfold RateOK
            have hv : rateValue (set_rate s r) = r := by
              simp [rateValue_def, set_rate]
            rw [hv]
            exact le_of_lt (not_le.mp hr)
    | undo =>
      by_cases hE : s.entries.isEmpty
      · have hdel : delete_last_entry s = (none, s) := by
          simp [delete_last_entry, hE]
        rw [hdel]
        exact ⟨hwf, hsign, hrate⟩
      · have hE2 : s.entries.isEmpty = false := by
          simpa using hE
        have hdel : (delete_last_entry s).2 =
            { s with entries := s.entries.filter (fun e => e.id ≠ maxId s.entries) } := by
          simp [delete_last_entry, hE2]
        rw [hdel]
        refine ⟨⟨List.Pairwise.sublist (List.filter_sublist _) hwf.1, ?_⟩, ?_, ?_⟩
        · intro e he
          exact hwf.2 e (List.mem_filter.mp he).1
        · intro e he
          exact hsign e (List.mem_filter.mp he).1
        · exact @RateOK_of_same_rateVal s _ rfl hrate
    | reset =>
      refine ⟨⟨List.Pairwise.nil, ?_⟩, ?_, ?_⟩
      · intro e he
        simp [reset_ledger] at he
      · intro e he
        simp [reset_ledger] at he
      · exact @RateOK_of_same_rateVal s _ rfl hrate
    | reportRead =>
      refine ⟨WF_get_rate hwf, ?_, ?_⟩
      · intro e he
        rw [get_rate_entries] at he
        exact hsign e he
      · unfold RateOK
        rw [rateValue_get_rate_snd]
        exact hrate

/-- C10 witness: recording `+100` on the fresh store yields a store that is
well-formed, sign-consistent and has a non-negative rate. -/
theorem C10_sign_invariant_witness :
    WF (message_handler init_db "+100" 1 "A" "t") ∧
    SignOK (message_handler init_db "+100" 1 "A" "t") ∧
    RateOK (message_handler init_db "+100" 1 "A" "t") :=
  C10_sign_invariant.2 init_db (message_handler init_db "+100" 1 "A" "t")
    (Step.message init_db "+100" 1 "A" "t")
    ⟨List.Pairwise.nil, by simp [init_db]⟩
    (fun e he => by simp [init_db] at he)
    (by unfold RateOK
        rw [show rateValue init_db = DEFAULT_RATE from rfl]
        norm_num [DEFAULT_RATE])

/-- The group keys of the per-user query are exactly the distinct
usernames. -/
lemma groupTotals_names (l : List Entry) :
    (groupTotals l).map (fun r => r.1) = (l.map (fun e => e.username)).dedup := by
  unfold groupTotals
  rw [List.map_map]
  have hcomp : ∀ u ∈ (l.map (fun e => e.username)).dedup,
      ((fun r : String × ℚ × ℚ => r.1) ∘
        (fun u => (u, sumInrBy l u, sumUsdtBy l u))) u = id u :=
    fun u _ => rfl
  rw [List.map_congr_left hcomp, List.map_id]

/-- Every row of the ordered per-user list is a group row: its key is a
stored username and its two totals are the sums over that username's
entries. -/
lemma mem_per_user {l : List Entry} {r : String × ℚ × ℚ} (h : r ∈ per_user l) :
    r.1 ∈ (l.map (fun e => e.username)).dedup ∧
    r.2.1 = sumInrBy l r.1 ∧ r.2.2 = sumUsdtBy l r.1 := by
  have hg : r ∈ groupTotals l :=
    (List.perm_insertionSort byInrDesc (groupTotals l)).subset h
  unfold groupTotals at hg
  rcases List.mem_map.mp hg with ⟨u, hu, rfl⟩
  exact ⟨hu, rfl, rfl⟩

/-- Each stored entry's username has its group row in the per-user list. -/
lemma username_row_exists {l : List Entry} {e : Entry} (he : e ∈ l) :
    (e.username, sumInrBy l e.username, sumUsdtBy l e.username) ∈ per_user l := by
  have hd : e.username ∈ (l.map (fun x => x.username)).dedup :=
    List.mem_dedup.mpr (List.mem_map.mpr ⟨e, he, rfl⟩)
  have hg : (e.username, sumInrBy l e.username, sumUsdtBy l e.username) ∈
      groupTotals l := List.mem_map.mpr ⟨e.username, hd, rfl⟩
  exact (List.perm_insertionSort byInrDesc (groupTotals l)).symm.subset hg

/-- With a positive limit and a non-empty table, the recent listing starts
with the entry carrying the maximal id. -/
lemma recent_head {s : Store} {n : Nat} (hn : 1 ≤ n) (hne : s.entries ≠ []) :
    ∃ h rest, get_last_entries s n = h :: rest ∧ h ∈ s.entries ∧
      h.id = maxId s.entries := by
  obtain ⟨h, t, hs, hmem, hid⟩ := sortDesc_head hne
  obtain ⟨m, rfl⟩ : ∃ m, n = m + 1 := ⟨n - 1, by omega⟩
  exact ⟨h, t.take m, by simp [get_last_entries, hs], hmem, hid⟩

/-- C4: the report's per-user section groups entries by `displayName`
(each printed row's totals are the sums of primary and secondary amounts
over the entries with that name, the row keys being exactly the distinct
names), the underlying list is ordered by summed primary amount descending,
and the single row whose name equals the name of the most recent (maximal
id) entry is moved to the front, the others keeping the descending order
unchanged (a stable partition keyed on the name, regardless of that row's
total).  Display names are non-empty, as the data model requires. -/
theorem C4_report_user_rows (s : Store) (n : Nat) (hn : 1 ≤ n)
    (hwf : WF s) (hne : s.entries ≠ [])
    (hnames : ∀ e ∈ s.entries, e.username ≠ "") :
    List.Sorted byInrDesc (per_user s.entries) ∧
    ((per_user s.entries).map (fun r => r.1)).Perm
      ((s.entries.map (fun e => e.username)).dedup) ∧
    (∀ r ∈ reportUserRows s n, r ∈ per_user s.entries ∧
       r.2.1 = sumInrBy s.entries r.1 ∧ r.2.2 = sumUsdtBy s.entries r.1) ∧
    ∃ last : Entry, last ∈ s.entries ∧ last.id = maxId s.entries ∧
      ∃ f, (per_user s.entries).find? (fun r => r.1 = last.username) = some f ∧
        f.1 = last.username ∧
        reportUserRows s n =
          f :: (per_user s.entries).filter (fun r => r.1 ≠ last.username) := by
  obtain ⟨h, rest, hrec, hmem, hid⟩ := recent_head hn hne
  have hname : ¬ (h.username = "") := hnames h hmem
  have hrow := username_row_exists hmem
  have hsome : ((per_user s.entries).find? (fun r => r.1 = h.username)).isSome := by
    rw [List.find?_isSome]
    exact ⟨_, hrow, by simp⟩
  obtain ⟨f, hf⟩ := Option.isSome_iff_exists.mp hsome
  have hf1 : f.1 = h.username := by
    have := List.find?_some hf
    simpa using this
  have hrep : reportUserRows s n =
      f :: (per_user s.entries).filter (fun r => r.1 ≠ h.username) := by
    simp only [reportUserRows, hrec, hf]
    rw [if_neg hname]
  refine ⟨List.sorted_insertionSort byInrDesc (groupTotals s.entries),
    ?_, ?_, h, hmem, hid, f, hf, hf1, hrep⟩
  · have hperm := (List.perm_insertionSort byInrDesc (groupTotals s.entries)).map
      (fun r => r.1)
    rw [groupTotals_names] at hperm
    exact hperm
  · intro r hr
    rw [hrep] at hr
    rcases List.mem_cons.mp hr with rfl | hr2
    · have hfm : r ∈ per_user s.entries := List.mem_of_find?_eq_some hf
      exact ⟨hfm, (mem_per_user hfm).2⟩
    · have hm2 : r ∈ per_user s.entries := (List.mem_filter.mp hr2).1
      exact ⟨hm2, (mem_per_user hm2).2⟩

/-- A three-entry snapshot: two "Alice" entries under different user ids
and a most-recent "Bob" entry whose total is the smallest. -/
def c4Store : Store :=
  { entries := [{ id := 1, user_id := 1, username := "Alice", amount_inr := 1000,
                  amount_usdt := 10, ts := "t1" },
                { id := 2, user_id := 9, username := "Alice", amount_inr := 20,
                  amount_usdt := 1, ts := "t2" },
                { id := 3, user_id := 7, username := "Bob", amount_inr := 50,
                  amount_usdt := 1, ts := "t3" }],
    nextId := 4, rateVal := some (MetaVal.num DEFAULT_RATE) }

/-- C4 witness: on the snapshot, Bob's row (smallest total) is fronted
because Bob made the most recent entry, the Alice rows merge across user
ids, and the rest keeps the descending order. -/
theorem C4_report_user_rows_witness :
    List.Sorted byInrDesc (per_user c4Store.entries) ∧
    ((per_user c4Store.entries).map (fun r => r.1)).Perm
      ((c4Store.entries.map (fun e => e.username)).dedup) ∧
    (∀ r ∈ reportUserRows c4Store 10, r ∈ per_user c4Store.entries ∧
       r.2.1 = sumInrBy c4Store.entries r.1 ∧
       r.2.2 = sumUsdtBy c4Store.entries r.1) ∧
    ∃ last : Entry, last ∈ c4Store.entries ∧ last.id = maxId c4Store.entries ∧
      ∃ f, (per_user c4Store.entries).find? (fun r => r.1 = last.username) = some f ∧
        f.1 = last.username ∧
        reportUserRows c4Store 10 =
          f :: (per_user c4Store.entries).filter (fun r => r.1 ≠ last.username) :=
  C4_report_user_rows c4Store 10 (by decide) ⟨by decide, by decide⟩
    (by decide) (by decide)

end LedgerBot
